import Mathlib

/-!
# Verification of the Language Companion SRS core

Shallow embedding of the spaced-repetition scheduling and card-store
subsystem of the `language-companion` repository:

* `src/utils/constants.py` — the interval ladder and default ease;
* `src/utils/srs.py` — `_today`, `is_due`, `schedule_next`;
* `src/utils/storage.py` — `_ensure_file`, `load_db`, `save_db`, `upsert_cards`.

Modelling choices:

* Python floats become `ℚ` (the scheduler only adds/subtracts decimal
  constants and clamps), Python ints become `ℤ`, Python str becomes `String`.
* A card dictionary becomes a structure of `Option`-valued fields: `none`
  models a key that is absent or bound to `None` (the two behave identically
  in every code path the claims exercise).
* `datetime.utcnow()` is impure, so the current UTC day enters as an explicit
  `todayDays : ℤ` parameter (days since 1970-01-01); `datetime` values
  become `PyDateTime` (civil day count plus seconds-of-day), with
  Gregorian-calendar conversions modelling Python's proleptic calendar.
* Fallible operations (`card["term"]` on a missing key, list indexing)
  return `Except`/`Option`.
* File I/O in `storage.py` is modelled by explicit state passing over an
  abstract filesystem state (`PyFS`).
-/

namespace LangCompanion

/-! ## Constants (`src/utils/constants.py`) -/

/-- `SRS_INTERVALS_DAYS = [1, 3, 7, 14, 30]` — the interval ladder. -/
def SRS_INTERVALS_DAYS : List ℤ := [1, 3, 7, 14, 30]

/-- `DEFAULT_EASE = 2.5`. -/
def DEFAULT_EASE : ℚ := 2.5

/-! ## Calendar arithmetic (model of Python `datetime`)

Python `datetime` uses the proleptic Gregorian calendar.  We convert between
civil dates `(year, month, day)` and a day count with epoch 1970-01-01
(Howard Hinnant's `civil_from_days` / `days_from_civil` algorithms, which
Python's `datetime.toordinal`/`fromordinal` agree with up to the epoch
shift).  `ℤ` division in Lean is floor division, as is Python's `//`. -/

/-- Civil date from a count of days since 1970-01-01. -/
def civilFromDays (z0 : ℤ) : ℤ × ℕ × ℕ :=
  let z := z0 + 719468
  let era : ℤ := z / 146097
  let doe : ℤ := z - era * 146097
  let yoe : ℤ := (doe - doe / 1460 + doe / 36524 - doe / 146096) / 365
  let y : ℤ := yoe + era * 400
  let doy : ℤ := doe - (365 * yoe + yoe / 4 - yoe / 100)
  let mp : ℤ := (5 * doy + 2) / 153
  let d : ℤ := doy - (153 * mp + 2) / 5 + 1
  let m : ℤ := if mp < 10 then mp + 3 else mp - 9
  (y + (if m ≤ 2 then 1 else 0), m.toNat, d.toNat)

/-- Count of days since 1970-01-01 of a civil date. -/
def daysFromCivil (y : ℤ) (m d : ℕ) : ℤ :=
  let y1 : ℤ := if m ≤ 2 then y - 1 else y
  let era : ℤ := y1 / 400
  let yoe : ℤ := y1 - era * 400
  let mp : ℤ := if 2 < m then (m : ℤ) - 3 else (m : ℤ) + 9
  let doy : ℤ := (153 * mp + 2) / 5 + (d : ℤ) - 1
  let doe : ℤ := yoe * 365 + yoe / 4 - yoe / 100 + doy
  era * 146097 + doe - 719468

/-- Zero-padded decimal rendering, as Python's `%02d`/`%04d`. -/
def padNat (width n : ℕ) : String :=
  let s := toString n
  String.mk (List.replicate (width - s.length) '0') ++ s

/-- `date.isoformat()`-style rendering of a civil day count: `YYYY-MM-DD`. -/
def isoDateString (z : ℤ) : String :=
  let c := civilFromDays z
  padNat 4 c.1.toNat ++ "-" ++ padNat 2 c.2.1 ++ "-" ++ padNat 2 c.2.2

/-- `datetime.isoformat()` of a midnight `datetime`: the date part followed
by the time-of-day part `"T00:00:00"` (Python prints hours, minutes and
seconds even when they are zero, omitting only zero microseconds). -/
def isoMidnightString (z : ℤ) : String :=
  isoDateString z ++ "T00:00:00"

/-- Model of a Python `datetime` value: civil day count since 1970-01-01
plus seconds within the day (microseconds are irrelevant to the embedded
code paths, which only produce or compare whole-second values). -/
structure PyDateTime where
  days : ℤ
  secs : ℕ
deriving Repr, DecidableEq

/-- `datetime` comparison `a <= b` (lexicographic on day then time). -/
def dtLe (a b : PyDateTime) : Bool :=
  a.days < b.days || (a.days == b.days && a.secs ≤ b.secs)

/-- Leap-year test of the Gregorian calendar. -/
def isLeapYear (y : ℤ) : Bool :=
  (y % 4 == 0 && y % 100 != 0) || (y % 400 == 0)

/-- Number of days in a month (Python `calendar`/`datetime` validation). -/
def daysInMonth (y : ℤ) (m : ℕ) : ℕ :=
  if m = 2 then (if isLeapYear y then 29 else 28)
  else if m = 4 ∨ m = 6 ∨ m = 9 ∨ m = 11 then 30
  else 31

/-- Numeric value of a decimal digit character. -/
def digitVal (c : Char) : ℕ := c.toNat - 48

/-- Parse the ten characters `YYYY-MM-DD` into a validated civil date
(year in `[1, 9999]`, month in `[1, 12]`, day within the month), as
Python's `datetime.fromisoformat` validates its date part. -/
def parseDateChars : List Char → Option (ℤ × ℕ × ℕ)
  | [y1, y2, y3, y4, c1, m1, m2, c2, d1, d2] =>
    if y1.isDigit ∧ y2.isDigit ∧ y3.isDigit ∧ y4.isDigit ∧ c1 = '-' ∧
        m1.isDigit ∧ m2.isDigit ∧ c2 = '-' ∧ d1.isDigit ∧ d2.isDigit then
      let y : ℤ := (1000 * digitVal y1 + 100 * digitVal y2 +
        10 * digitVal y3 + digitVal y4 : ℕ)
      let m : ℕ := 10 * digitVal m1 + digitVal m2
      let d : ℕ := 10 * digitVal d1 + digitVal d2
      if 1 ≤ y ∧ 1 ≤ m ∧ m ≤ 12 ∧ 1 ≤ d ∧ d ≤ daysInMonth y m then
        some (y, m, d)
      else none
    else none
  | _ => none

/-- Parse an optional `HH:MM:SS` time part into seconds-of-day. -/
def parseTimeChars : List Char → Option ℕ
  | [] => some 0
  | [h1, h2, c1, m1, m2, c2, s1, s2] =>
    if h1.isDigit ∧ h2.isDigit ∧ c1 = ':' ∧ m1.isDigit ∧ m2.isDigit ∧
        c2 = ':' ∧ s1.isDigit ∧ s2.isDigit then
      let h := 10 * digitVal h1 + digitVal h2
      let mi := 10 * digitVal m1 + digitVal m2
      let s := 10 * digitVal s1 + digitVal s2
      if h ≤ 23 ∧ mi ≤ 59 ∧ s ≤ 59 then some (3600 * h + 60 * mi + s)
      else none
    else none
  | _ => none

/-- Model of `datetime.fromisoformat` on the strings this system reads and
writes: a date `YYYY-MM-DD`, optionally followed by a `T` or space
separator and a time `HH:MM:SS`.  Anything else is unparseable (`none`,
modelling the `ValueError` the surrounding `try` catches). -/
def fromisoformat (s : String) : Option PyDateTime :=
  match s.toList with
  | y1 :: y2 :: y3 :: y4 :: c1 :: m1 :: m2 :: c2 :: d1 :: d2 :: rest =>
    match parseDateChars [y1, y2, y3, y4, c1, m1, m2, c2, d1, d2] with
    | none => none
    | some ymd =>
      let z := daysFromCivil ymd.1 ymd.2.1 ymd.2.2
      match rest with
      | [] => some ⟨z, 0⟩
      | sep :: timeChars =>
        if sep = 'T' ∨ sep = ' ' then
          (parseTimeChars timeChars).map (fun secs => ⟨z, secs⟩)
        else none
  | _ => none

/-! ## Data model

A card dictionary from `srs_db.json`: every field optional, `none` for an
absent key (or a key bound to JSON `null`). -/

structure Card where
  term : Option String := none
  pos : Option String := none
  translation : Option String := none
  example_source : Option String := none
  example_en : Option String := none
  lang : Option String := none
  ease : Option ℚ := none
  step : Option ℤ := none
  due : Option String := none
deriving Repr, DecidableEq

/-- The persisted store: `{"lessons": [...], "cards": [...]}`.  Lesson
records are opaque to the SRS core and modelled as strings. -/
structure SRSDb where
  lessons : List String := []
  cards : List Card := []
deriving Repr, DecidableEq

/-! ## Scheduler (`src/utils/srs.py`) -/

/-- Python list subscript `l[i]`: non-negative indexing, negative
wrap-around indexing, `none` for `IndexError`. -/
def pyGetItem (l : List ℤ) (i : ℤ) : Option ℤ :=
  if 0 ≤ i then l.get? i.toNat
  else if 0 ≤ (l.length : ℤ) + i then l.get? ((l.length : ℤ) + i).toNat
  else none

/-- `is_due(card)`: a card with a missing, empty or unparseable `due` is
due; otherwise due iff today's UTC midnight is `>=` the parsed value.
`todayDays` is the civil day count of `_today()`. -/
def is_due (todayDays : ℤ) (card : Card) : Bool :=
  match card.due with
  | none => true
  | some due =>
    if due = "" then true
    else
      match fromisoformat due with
      | none => true
      | some dt => dtLe dt ⟨todayDays, 0⟩

/-- `schedule_next(card, quality)`: ease/step transition then due-date
computation.  Returns `none` when the ladder subscript raises
`IndexError` (possible only for an out-of-range input `step`, see C10). -/
def schedule_next (card : Card) (quality : String) (todayDays : ℤ) :
    Option Card :=
  let ease := card.ease.getD DEFAULT_EASE
  let step := card.step.getD 0
  let next : ℤ × ℚ :=
    if quality = "again" then (0, max 1.3 (ease - 0.2))
    else if quality = "hard" then (step, max 1.3 (ease - 0.05))
    else if quality = "good" then
      (min (step + 1) ((SRS_INTERVALS_DAYS.length : ℤ) - 1), ease)
    else if quality = "easy" then
      (min (step + 2) ((SRS_INTERVALS_DAYS.length : ℤ) - 1),
        min 3.0 (ease + 0.05))
    else (min (step + 1) ((SRS_INTERVALS_DAYS.length : ℤ) - 1), ease)
  match pyGetItem SRS_INTERVALS_DAYS next.1 with
  | none => none
  | some days =>
    some { card with
      step := some next.1
      ease := some next.2
      due := some (isoMidnightString (todayDays + days)) }

/-! ## Upsert engine and persistence (`src/utils/storage.py`) -/

/-- Python `str.lower()`, character by character (sufficient for the
case-folding `upsert_cards` performs on terms). -/
def pyLower (s : String) : String := String.mk (s.data.map Char.toLower)

/-- The identity key `(c["term"].lower(), c.get("lang", "auto"))`.
`none` models the `KeyError` raised when the card has no `term`. -/
def pyKey (c : Card) : Option (String × String) :=
  match c.term with
  | none => none
  | some t => some (pyLower t, c.lang.getD "auto")

/-- Non-null-overwriting merge of a single field:
`dict.update({k: v for k, v in new.items() if v is not None})` keeps the
old binding exactly when the incoming one is absent or null. -/
def ov {α : Type} (incoming old : Option α) : Option α :=
  match incoming with
  | some v => some v
  | none => old

/-- `existing_card.update({k: v for k, v in new_card.items() if v is not None})`. -/
def mergeCard (old incoming : Card) : Card where
  term := ov incoming.term old.term
  pos := ov incoming.pos old.pos
  translation := ov incoming.translation old.translation
  example_source := ov incoming.example_source old.example_source
  example_en := ov incoming.example_en old.example_en
  lang := ov incoming.lang old.lang
  ease := ov incoming.ease old.ease
  step := ov incoming.step old.step
  due := ov incoming.due old.due

/-- Lookup in the identity index (Python dict lookup). -/
def lookupIdx : List ((String × String) × ℕ) → (String × String) → Option ℕ
  | [], _ => none
  | (k, i) :: rest, key => if k = key then some i else lookupIdx rest key

/-- In-place update of one list position: `db["cards"][idx].update(...)`. -/
def listModify (l : List Card) (n : ℕ) (f : Card → Card) : List Card :=
  match l, n with
  | [], _ => []
  | c :: rest, 0 => f c :: rest
  | c :: rest, Nat.succ m => c :: listModify rest m f

/-- The identity index built by
`{(c["term"].lower(), c.get("lang", "auto")): i for i, c in enumerate(db["cards"])}`:
association list whose lookup returns the index of the *last* card with a
given key (a Python dict comprehension lets later entries overwrite
earlier ones), and `KeyError` (`Except.error`) when some card lacks `term`.
`i0` is the index of the first card of the remaining list. -/
def buildIndexAux : List Card → ℕ → Except String (List ((String × String) × ℕ))
  | [], _ => Except.ok []
  | c :: rest, i0 =>
    match pyKey c with
    | none => Except.error "KeyError: term"
    | some k =>
      match buildIndexAux rest (i0 + 1) with
      | Except.error e => Except.error e
      | Except.ok idx => Except.ok (idx ++ [(k, i0)])

/-- The `for new_card in new_cards:` loop of `upsert_cards`: items whose
key is in the (fixed, pre-loop) index merge into the indexed position, all
others are appended; the counter increments for every item.  A `term`-less
item raises `KeyError`. -/
def upsertLoop (ix : List ((String × String) × ℕ)) :
    List Card → List Card → ℕ → Except String (List Card × ℕ)
  | [], cards, count => Except.ok (cards, count)
  | item :: rest, cards, count =>
    match pyKey item with
    | none => Except.error "KeyError: term"
    | some k =>
      match lookupIdx ix k with
      | some idx =>
        upsertLoop ix rest (listModify cards idx (fun old => mergeCard old item))
          (count + 1)
      | none => upsertLoop ix rest (cards ++ [item]) (count + 1)

/-- `upsert_cards(new_cards)`: load, index, loop, save.  The returned store
is the one handed to `save_db`; an error means an exception propagated
before `save_db` ran. -/
def upsert_cards (db : SRSDb) (new_cards : List Card) :
    Except String (SRSDb × ℕ) :=
  match buildIndexAux db.cards 0 with
  | Except.error e => Except.error e
  | Except.ok ix =>
    match upsertLoop ix new_cards db.cards 0 with
    | Except.error e => Except.error e
    | Except.ok (cards1, count) =>
      Except.ok ({ db with cards := cards1 }, count)

/-- A sequence of `upsert_cards` calls, each persisting its result for the
next (load → mutate → save round trips). -/
def upsertSeq (db : SRSDb) : List (List Card) → Except String SRSDb
  | [] => Except.ok db
  | call :: rest =>
    match upsert_cards db call with
    | Except.error e => Except.error e
    | Except.ok (db1, _) => upsertSeq db1 rest

/-- The persisted store after a call: updated on success, untouched when
the call raised before reaching `save_db`. -/
def persistAfter (db : SRSDb) (r : Except String (SRSDb × ℕ)) : SRSDb :=
  match r with
  | Except.ok (db1, _) => db1
  | Except.error _ => db

/-- "No two cards share the identity key": pairwise over the stored card
list, cards lacking a key constrain nothing. -/
def NoDupKeys (cards : List Card) : Prop :=
  (cards.map pyKey).Pairwise (fun a b => a = none ∨ a ≠ b)

/-! ## Card store persistence model (`_ensure_file` / `load_db`)

`storage.py` talks to the filesystem; we model the relevant state — the
parent directory and the backing document — explicitly.  The document is
either missing, present but unparseable as JSON, or a parsed store. -/

inductive DocState where
  | missing : DocState
  | unparseable : DocState
  | parsed : SRSDb → DocState
deriving Repr, DecidableEq

structure PyFS where
  parentDirExists : Bool
  doc : DocState
deriving Repr, DecidableEq

/-- The empty default schema `{"lessons": [], "cards": []}`. -/
def defaultDb : SRSDb := { lessons := [], cards := [] }

/-- `_ensure_file()`: create missing parent directories
(`path.parent.mkdir(parents=True, exist_ok=True)`), then write the default
schema if and only if the file does not exist. -/
def ensure_file (fs : PyFS) : PyFS where
  parentDirExists := true
  doc :=
    match fs.doc with
    | DocState.missing => DocState.parsed defaultDb
    | d => d

/-- `load_db()`: ensure the file exists, then parse it, substituting the
empty default schema when parsing fails.  Returns the loaded store and the
filesystem state after the call. -/
def load_db (fs : PyFS) : SRSDb × PyFS :=
  let fs1 := ensure_file fs
  (match fs1.doc with
   | DocState.parsed db => db
   | _ => defaultDb,
   fs1)

instance (cards : List Card) : Decidable (NoDupKeys cards) :=
  inferInstanceAs
    (Decidable ((cards.map pyKey).Pairwise (fun a b => a = none ∨ a ≠ b)))

/-! ## Derived definitions used by the statements -/

/-- The `(step, ease)` pair computed by the grade branches of
`schedule_next` (the body of its `if`/`elif` chain, split out so that
statements can speak about the ladder index before the subscript). -/
def nextPair (card : Card) (quality : String) : ℤ × ℚ :=
  let ease := card.ease.getD DEFAULT_EASE
  let step := card.step.getD 0
  if quality = "again" then (0, max 1.3 (ease - 0.2))
  else if quality = "hard" then (step, max 1.3 (ease - 0.05))
  else if quality = "good" then
    (min (step + 1) ((SRS_INTERVALS_DAYS.length : ℤ) - 1), ease)
  else if quality = "easy" then
    (min (step + 2) ((SRS_INTERVALS_DAYS.length : ℤ) - 1),
      min 3.0 (ease + 0.05))
  else (min (step + 1) ((SRS_INTERVALS_DAYS.length : ℤ) - 1), ease)

/-- Does a string have the plain calendar-date form `YYYY-MM-DD` — ten
characters, no time-of-day component, no timezone offset? -/
def isPlainIsoDate (s : String) : Bool := (parseDateChars s.toList).isSome

/-! ## Fixtures for witnesses and counterexamples -/

/-- Fixture: a freshly extracted German vocabulary item. -/
def hausItem : Card := { term := some "haus", lang := some "German" }

/-- Fixture: a re-extraction of the same item, capitalized, with a
translation. -/
def hausItem2 : Card :=
  { term := some "Haus", lang := some "German", translation := some "house" }

/-- Fixture: the store holding the merged card of the two fixtures above. -/
def hausDbMerged : SRSDb := { cards := [mergeCard hausItem hausItem2] }

/-- Fixture: a card that has already been graded (ease/step/due set). -/
def gradedCard : Card :=
  { term := some "haus", lang := some "German", translation := some "house",
    ease := some 2.3, step := some 1, due := some "2026-10-13T00:00:00" }

/-- Fixture: a re-extraction of the graded card with a new translation and
no `ease`/`step`/`due`. -/
def retransItem : Card :=
  { term := some "haus", lang := some "German", translation := some "home" }

/-- Fixture: store holding only the graded card. -/
def gradedDb : SRSDb := { cards := [gradedCard] }

/-- Fixture: store after upserting the re-extraction into `gradedDb`. -/
def gradedDb2 : SRSDb := { cards := [mergeCard gradedCard retransItem] }

/-- Fixture: an extracted item missing its `term`. -/
def noTermItem : Card := { translation := some "nothing" }

/-- Fixture: a fresh card about to receive its first grade
(spec scenario B: `ease 2.5`, `step 0`). -/
def cardB : Card := { ease := some 2.5, step := some 0 }

/-- Fixture: `cardB` graded "good" on day 20738: step 1, ladder day count
3, due three days later at midnight. -/
def cardBgood : Card :=
  { ease := some 2.5, step := some 1, due := some "2026-10-15T00:00:00" }

/-- Fixture: spec scenario C input (`ease 2.5`, `step 1`). -/
def cardC : Card := { ease := some 2.5, step := some 1 }

/-- Fixture: `cardC` graded "good" on day 20738: `step 2`, ease
unchanged, due seven days later at midnight. -/
def cardCres : Card :=
  { ease := some 2.5, step := some 2, due := some "2026-10-19T00:00:00" }

/-- Fixture: a card at the top rung of the ladder. -/
def maxStepCard : Card := { step := some 4 }

/-- Fixture: a card due yesterday relative to day 20738. -/
def dueYesterdayCard : Card := { due := some "2026-10-11" }

/-- Fixture: a card due tomorrow relative to day 20738. -/
def dueTomorrowCard : Card := { due := some "2026-10-13" }

/-- Fixture: a card with an unparseable due value. -/
def badDueCard : Card := { due := some "soon" }

/-! ## Helper lemmas -/

theorem lookupIdx_append (l1 l2 : List ((String × String) × ℕ))
    (k : String × String) :
    lookupIdx (l1 ++ l2) k =
      (match lookupIdx l1 k with
       | some i => some i
       | none => lookupIdx l2 k) := by
  induction l1 with
  | nil => rfl
  | cons p rest ih =>
    by_cases h : p.1 = k
    · simp [lookupIdx, h]
    · simp only [List.cons_append, lookupIdx, h, if_false, List.append_eq]
      exact ih

theorem listModify_getElem?_self (l : List Card) (n : ℕ) (f : Card → Card)
    (a : Card) (h : l[n]? = some a) :
    (listModify l n f)[n]? = some (f a) := by
  induction l generalizing n with
  | nil => simp at h
  | cons c rest ih =>
    cases n with
    | zero =>
      simp only [List.getElem?_cons_zero, Option.some.injEq] at h
      subst h; simp [listModify]
    | succ m =>
      simp only [List.getElem?_cons_succ] at h
      simpa [listModify] using ih m h

theorem listModify_getElem?_ne (l : List Card) (n m : ℕ) (f : Card → Card)
    (h : m ≠ n) : (listModify l n f)[m]? = l[m]? := by
  induction l generalizing n m with
  | nil => cases n <;> rfl
  | cons c rest ih =>
    cases n with
    | zero =>
      cases m with
      | zero => exact absurd rfl h
      | succ m2 => simp [listModify]
    | succ n2 =>
      cases m with
      | zero => simp [listModify]
      | succ m2 =>
        simpa [listModify] using ih n2 m2 (fun hc => h (by rw [hc]))

theorem listModify_map_key (l : List Card) (n : ℕ) (f : Card → Card)
    (h : ∀ a, l[n]? = some a → pyKey (f a) = pyKey a) :
    (listModify l n f).map pyKey = l.map pyKey := by
  induction l generalizing n with
  | nil => rfl
  | cons c rest ih =>
    cases n with
    | zero =>
      have hc := h c (by simp)
      simp [listModify, hc]
    | succ m =>
      simp only [listModify, List.map_cons, List.cons.injEq, true_and]
      exact ih m (fun a ha => h a (by simpa using ha))

theorem listModify_mem (l : List Card) (n : ℕ) (f : Card → Card) (c : Card)
    (h : c ∈ listModify l n f) :
    c ∈ l ∨ ∃ a, l[n]? = some a ∧ c = f a := by
  induction l generalizing n with
  | nil => simp [listModify] at h
  | cons d rest ih =>
    cases n with
    | zero =>
      rcases (List.mem_cons).1 h with h1 | h1
      · exact Or.inr ⟨d, by simp, h1⟩
      · exact Or.inl (List.mem_cons_of_mem _ h1)
    | succ m =>
      rcases (List.mem_cons).1 h with h1 | h1
      · exact Or.inl (h1 ▸ List.mem_cons_self _ _)
      · rcases ih m h1 with h2 | ⟨a, ha, hc⟩
        · exact Or.inl (List.mem_cons_of_mem _ h2)
        · exact Or.inr ⟨a, by simpa using ha, hc⟩

theorem pyKey_mergeCard (old incoming : Card) (k : String × String)
    (hold : pyKey old = some k) (hinc : pyKey incoming = some k) :
    pyKey (mergeCard old incoming) = some k := by
  rcases hto : old.term with _ | t0
  · simp [pyKey, hto] at hold
  rcases hti : incoming.term with _ | t1
  · simp [pyKey, hti] at hinc
  simp only [pyKey, hto, Option.some.injEq] at hold
  simp only [pyKey, hti, Option.some.injEq] at hinc
  rcases hli : incoming.lang with _ | l1
  · -- incoming has no `lang`: the merged card keeps the old one, and the
    -- old card's defaulted lang must agree with the incoming default "auto"
    simp only [hli, Option.getD_none] at hinc
    have h2 : old.lang.getD "auto" = "auto" := by
      have ha := congrArg Prod.snd hold
      have hb := congrArg Prod.snd hinc
      simp only at ha hb
      rw [ha, ← hb]
    simp only [pyKey, mergeCard, ov, hti, hli, h2]
    rw [hinc]
  · simp only [hli, Option.getD_some] at hinc
    simp only [pyKey, mergeCard, ov, hti, hli, Option.getD_some]
    rw [hinc]

/-- Soundness of the identity index: every index hit points at a card of
the indexed list that bears the looked-up key. -/
theorem buildIndexAux_sound (cards : List Card) :
    ∀ (i0 : ℕ) (ix : List ((String × String) × ℕ)),
    buildIndexAux cards i0 = Except.ok ix →
    ∀ (k : String × String) (j : ℕ), lookupIdx ix k = some j →
    ∃ m c, cards[m]? = some c ∧ pyKey c = some k ∧ j = i0 + m := by
  induction cards with
  | nil =>
    intro i0 ix h k j hl
    simp only [buildIndexAux, Except.ok.injEq] at h
    subst h
    simp [lookupIdx] at hl
  | cons c rest ih =>
    intro i0 ix h k j hl
    rcases hk : pyKey c with _ | kc <;> rw [buildIndexAux, hk] at h
    · exact absurd h (by simp)
    rcases hrest : buildIndexAux rest (i0 + 1) with e | ixr <;> rw [hrest] at h
    · exact absurd h (by simp)
    simp only [Except.ok.injEq] at h
    subst h
    rw [lookupIdx_append] at hl
    rcases hlr : lookupIdx ixr k with _ | j1 <;> rw [hlr] at hl
    · simp only [lookupIdx] at hl
      by_cases hkc : kc = k
      · rw [if_pos hkc] at hl
        refine ⟨0, c, by simp, by rw [hk, hkc], ?_⟩
        simp only [Option.some.injEq] at hl
        omega
      · rw [if_neg hkc] at hl
        exact absurd hl (by simp)
    · simp only [Option.some.injEq] at hl
      rcases ih (i0 + 1) ixr hrest k j1 hlr with ⟨m, c1, hc1, hk1, hj1⟩
      exact ⟨m + 1, c1, by simpa using hc1, hk1, by omega⟩

/-- Completeness of the identity index: the key of every card of the
indexed list is found by lookup. -/
theorem buildIndexAux_complete (cards : List Card) :
    ∀ (i0 : ℕ) (ix : List ((String × String) × ℕ)),
    buildIndexAux cards i0 = Except.ok ix →
    ∀ (m : ℕ) (c : Card), cards[m]? = some c →
    ∀ k : String × String, pyKey c = some k →
    lookupIdx ix k ≠ none := by
  induction cards with
  | nil => intro i0 ix _ m c hc; simp at hc
  | cons d rest ih =>
    intro i0 ix h m c hc k hk
    rcases hd : pyKey d with _ | kd <;> rw [buildIndexAux, hd] at h
    · exact absurd h (by simp)
    rcases hrest : buildIndexAux rest (i0 + 1) with e | ixr <;> rw [hrest] at h
    · exact absurd h (by simp)
    simp only [Except.ok.injEq] at h
    subst h
    rw [lookupIdx_append]
    cases m with
    | zero =>
      simp only [List.getElem?_cons_zero, Option.some.injEq] at hc
      subst hc
      rcases hlr : lookupIdx ixr k with _ | j1
      · have : kd = k := by rw [hd] at hk; exact Option.some.inj hk
        simp [lookupIdx, this]
      · simp
    | succ m1 =>
      simp only [List.getElem?_cons_succ] at hc
      have h2 := ih (i0 + 1) ixr hrest m1 c hc k hk
      rcases hlr : lookupIdx ixr k with _ | j1
      · exact absurd hlr h2
      · simp

/-- The loop counter: a successful `upsert_cards` loop counts every
incoming item once. -/
theorem upsertLoop_count (ix : List ((String × String) × ℕ))
    (items : List Card) :
    ∀ cards count cards1 n,
    upsertLoop ix items cards count = Except.ok (cards1, n) →
    n = count + items.length := by
  induction items with
  | nil =>
    intro cards count cards1 n h
    simp only [upsertLoop, Except.ok.injEq, Prod.mk.injEq] at h
    obtain ⟨-, rfl⟩ := h
    simp
  | cons item rest ih =>
    intro cards count cards1 n h
    rcases hki : pyKey item with _ | k
    · simp [upsertLoop, hki] at h
    simp only [upsertLoop, hki] at h
    rcases hlk : lookupIdx ix k with _ | idx <;>
        simp only [hlk] at h <;>
      · have := ih _ _ _ _ h
        simp only [List.length_cons]
        omega

/-- A `term`-less incoming item makes the loop raise, whatever the
accumulated state. -/
theorem upsertLoop_err (ix : List ((String × String) × ℕ))
    (items : List Card) (hbad : ∃ item ∈ items, item.term = none) :
    ∀ cards count, ∃ e, upsertLoop ix items cards count = Except.error e := by
  induction items with
  | nil => simp at hbad
  | cons item rest ih =>
    intro cards count
    rcases hbad with ⟨b, hb, hbt⟩
    rcases List.mem_cons.1 hb with rfl | hbr
    · exact ⟨"KeyError: term", by simp [upsertLoop, pyKey, hbt]⟩
    rcases hki : pyKey item with _ | k
    · exact ⟨"KeyError: term", by simp [upsertLoop, hki]⟩
    have ih2 := ih ⟨b, hbr, hbt⟩
    rcases hlk : lookupIdx ix k with _ | idx
    · rcases ih2 (cards ++ [item]) (count + 1) with ⟨e, he⟩
      exact ⟨e, by simp [upsertLoop, hki, hlk, he]⟩
    · rcases ih2 (listModify cards idx (fun old => mergeCard old item))
        (count + 1) with ⟨e, he⟩
      exact ⟨e, by simp [upsertLoop, hki, hlk, he]⟩

/-- Key-uniqueness preservation through the upsert loop.  Hypotheses: the
index points at cards bearing the looked-up key; the incoming items have
pairwise distinct keys; any incoming key that misses the index is absent
from the accumulated card list; the accumulated card list has no duplicate
keys. -/
theorem upsertLoop_nodup (ix : List ((String × String) × ℕ))
    (items : List Card) :
    ∀ cards count cards1 n,
    upsertLoop ix items cards count = Except.ok (cards1, n) →
    (∀ (k : String × String) (j : ℕ), lookupIdx ix k = some j →
      ∃ c, cards[j]? = some c ∧ pyKey c = some k) →
    (items.map pyKey).Pairwise (fun a b => a = none ∨ a ≠ b) →
    (∀ item ∈ items, ∀ k : String × String, pyKey item = some k →
      lookupIdx ix k = none → ∀ c ∈ cards, pyKey c ≠ some k) →
    NoDupKeys cards →
    NoDupKeys cards1 := by
  induction items with
  | nil =>
    intro cards count cards1 n h hix hpw hnew hnd
    simp only [upsertLoop, Except.ok.injEq, Prod.mk.injEq] at h
    exact h.1 ▸ hnd
  | cons item rest ih =>
    intro cards count cards1 n h hix hpw hnew hnd
    rcases hki : pyKey item with _ | k
    · simp [upsertLoop, hki] at h
    simp only [upsertLoop, hki] at h
    simp only [List.map_cons, List.pairwise_cons] at hpw
    rcases hlk : lookupIdx ix k with _ | idx <;> simp only [hlk] at h
    · -- append branch: the incoming key misses the index
      have hknotin : ∀ c ∈ cards, pyKey c ≠ some k :=
        hnew item (List.mem_cons_self _ _) k hki hlk
      refine ih (cards ++ [item]) (count + 1) cards1 n h ?_ hpw.2 ?_ ?_
      · intro k1 j hj
        rcases hix k1 j hj with ⟨c, hc, hkc⟩
        have hlt : j < cards.length := by
          by_contra hge
          rw [List.getElem?_eq_none (by omega)] at hc
          exact absurd hc (by simp)
        exact ⟨c, by rw [List.getElem?_append_left hlt]; exact hc, hkc⟩
      · intro item1 h1 k1 hk1 hlk1 c hc
        rcases List.mem_append.1 hc with hc
          | hc
        · exact hnew item1 (List.mem_cons_of_mem _ h1) k1 hk1 hlk1 c hc
        · rcases List.mem_singleton.1 hc with rfl
          have h0 := hpw.1 (pyKey item1) (List.mem_map_of_mem pyKey h1)
          rw [hki, hk1] at h0
          rcases h0 with h2 | h2
          · exact absurd h2 (by simp)
          · rw [hki]
            exact h2
      · show NoDupKeys (cards ++ [item])
        unfold NoDupKeys
        rw [List.map_append, List.pairwise_append]
        refine ⟨hnd, by simp, ?_⟩
        intro a ha b hb
        rcases List.mem_map.1 ha with ⟨c1, hc1, rfl⟩
        rcases List.mem_singleton.1 hb with rfl
        rcases hkc : pyKey c1 with _ | kc
        · exact Or.inl rfl
        · refine Or.inr fun hcon => ?_
          exact hknotin c1 hc1 (by rw [hkc, hcon]; exact hki)
    · -- merge branch: the incoming key hits the index at position `idx`
      rcases hix k idx hlk with ⟨old, holdg, holdk⟩
      have hmk : pyKey (mergeCard old item) = some k :=
        pyKey_mergeCard old item k holdk hki
      refine ih _ (count + 1) cards1 n h ?_ hpw.2 ?_ ?_
      · intro k1 j hj
        by_cases hji : j = idx
        · subst hji
          rcases hix k1 j hj with ⟨c, hc, hkc⟩
          rw [holdg] at hc
          have he : old = c := Option.some.inj hc
          rw [← he, holdk] at hkc
          have hk12 : k = k1 := Option.some.inj hkc
          refine ⟨mergeCard old item,
            listModify_getElem?_self cards j _ old holdg, ?_⟩
          rw [← hk12]
          exact hmk
        · rcases hix k1 j hj with ⟨c, hc, hkc⟩
          exact ⟨c, by rw [listModify_getElem?_ne cards idx j _ hji]; exact hc,
            hkc⟩
      · intro item1 h1 k1 hk1 hlk1 c hc
        rcases listModify_mem cards idx _ c hc with hc2 | ⟨a, hag, rfl⟩
        · exact hnew item1 (List.mem_cons_of_mem _ h1) k1 hk1 hlk1 c hc2
        · have ha2 : a = old := by
            rw [holdg] at hag
            exact (Option.some.inj hag).symm
          subst ha2
          rw [hmk]
          intro hcon
          have hk12 : k = k1 := Option.some.inj hcon
          rw [← hk12, hlk] at hlk1
          exact absurd hlk1 (by simp)
      · show NoDupKeys (listModify cards idx fun old1 => mergeCard old1 item)
        unfold NoDupKeys
        rw [listModify_map_key]
        · exact hnd
        · intro a hag
          have ha2 : a = old := by
            rw [holdg] at hag
            exact (Option.some.inj hag).symm
          subst ha2
          rw [hmk, holdk]

/-- A single successful `upsert_cards` call whose incoming items have
pairwise distinct identity keys preserves key uniqueness of the store. -/
theorem upsert_cards_nodup (db : SRSDb) (items : List Card) (db1 : SRSDb)
    (n : ℕ) (h : upsert_cards db items = Except.ok (db1, n))
    (hpw : (items.map pyKey).Pairwise (fun a b => a = none ∨ a ≠ b))
    (hnd : NoDupKeys db.cards) : NoDupKeys db1.cards := by
  rcases hbix : buildIndexAux db.cards 0 with e | ix
  · simp [upsert_cards, hbix] at h
  simp only [upsert_cards, hbix] at h
  rcases hloop : upsertLoop ix items db.cards 0 with e | p
  · simp [hloop] at h
  rcases p with ⟨cards1, count⟩
  simp only [hloop, Except.ok.injEq, Prod.mk.injEq] at h
  have hdb1 : db1.cards = cards1 := by rw [← h.1]
  rw [hdb1]
  refine upsertLoop_nodup ix items db.cards 0 cards1 count hloop ?_ hpw ?_ hnd
  · intro k j hj
    rcases buildIndexAux_sound db.cards 0 ix hbix k j hj with ⟨m, c, hc, hkc, hm⟩
    exact ⟨c, by rw [hm]; simpa using hc, hkc⟩
  · intro item _ k hk hnone c hc
    rcases List.mem_iff_getElem?.1 hc with ⟨m, hm⟩
    intro hkc
    exact buildIndexAux_complete db.cards 0 ix hbix m c hm k hkc hnone

/-- C1 (amended): for every sequence of upsert calls starting from a store
with no duplicate identity keys, where within each call the incoming items
have pairwise distinct identity keys, after the calls complete no two
cards in the store share the identity key `(lowercase(term), lang or
"auto")`.  (The original claim is refuted by
`upsert_single_call_duplicate_key_cex`: a single call containing two items
with the same fresh identity key appends both.) -/
theorem upsertSeq_preserves_identity_uniqueness
    (db : SRSDb) (calls : List (List Card)) (db1 : SRSDb)
    (h : upsertSeq db calls = Except.ok db1)
    (hcalls : ∀ call ∈ calls,
      (call.map pyKey).Pairwise (fun a b => a = none ∨ a ≠ b))
    (hnd : NoDupKeys db.cards) :
    NoDupKeys db1.cards := by
  induction calls generalizing db with
  | nil =>
    simp only [upsertSeq, Except.ok.injEq] at h
    exact h ▸ hnd
  | cons call rest ih =>
    rcases hcall : upsert_cards db call with e | p
    · simp [upsertSeq, hcall] at h
    rcases p with ⟨db2, n⟩
    simp only [upsertSeq, hcall] at h
    exact ih db2 h (fun c hc => hcalls c (List.mem_cons_of_mem _ hc))
      (upsert_cards_nodup db call db2 n hcall
        (hcalls call (List.mem_cons_self _ _)) hnd)

/-- C1 counterexample: starting from the empty store (trivially free of
duplicate identity keys), one `upsert_cards` call containing the same
`term`-only item twice completes successfully and leaves two cards with
the identity key `("haus", "auto")` in the store: the identity index is
built once before the loop and appended cards are never added to it. -/
theorem upsert_single_call_duplicate_key_cex :
    NoDupKeys defaultDb.cards ∧
    upsertSeq defaultDb [[{ term := some "haus" }, { term := some "haus" }]] =
      Except.ok { cards := [{ term := some "haus" }, { term := some "haus" }] } ∧
    ¬ NoDupKeys [{ term := some "haus" }, { term := some "haus" }] := by
  refine ⟨by decide, rfl, by decide⟩

/-- C1 witness: two successive single-item calls on the same identity key
(differing only in capitalization) merge into one card and keep the store
duplicate-free. -/
theorem upsertSeq_preserves_identity_uniqueness_witness :
    upsertSeq defaultDb [[hausItem], [hausItem2]] = Except.ok hausDbMerged ∧
    NoDupKeys hausDbMerged.cards :=
  ⟨rfl,
    upsertSeq_preserves_identity_uniqueness defaultDb [[hausItem], [hausItem2]]
      hausDbMerged rfl (by decide) (by decide)⟩

/-- `ov` keeps the old binding exactly when the incoming one is `none`. -/
theorem ov_eq_ite {α : Type} [DecidableEq α] (incoming old : Option α) :
    ov incoming old = if incoming = none then old else incoming := by
  rcases incoming <;> simp [ov]

/-- C6: when an upserted item's identity key matches an existing card, the
matched position receives exactly the non-null-overwriting merge, every
other position is untouched, and per field the merge keeps the prior value
exactly when the incoming value is null/absent — so an item omitting
`ease`, `step` and `due` leaves those three fields unchanged. -/
theorem upsert_cards_merge_preserves_fields (db : SRSDb) (item : Card)
    (k : String × String) (ix : List ((String × String) × ℕ)) (idx : ℕ)
    (old : Card) (db1 : SRSDb) (n : ℕ)
    (hbix : buildIndexAux db.cards 0 = Except.ok ix)
    (hk : pyKey item = some k)
    (hlook : lookupIdx ix k = some idx)
    (hold : db.cards[idx]? = some old)
    (h : upsert_cards db [item] = Except.ok (db1, n)) :
    db1.cards[idx]? = some (mergeCard old item) ∧
    (∀ j, j ≠ idx → db1.cards[j]? = db.cards[j]?) ∧
    (mergeCard old item).term
      = (if item.term = none then old.term else item.term) ∧
    (mergeCard old item).pos
      = (if item.pos = none then old.pos else item.pos) ∧
    (mergeCard old item).translation
      = (if item.translation = none then old.translation
         else item.translation) ∧
    (mergeCard old item).example_source
      = (if item.example_source = none then old.example_source
         else item.example_source) ∧
    (mergeCard old item).example_en
      = (if item.example_en = none then old.example_en
         else item.example_en) ∧
    (mergeCard old item).lang
      = (if item.lang = none then old.lang else item.lang) ∧
    (mergeCard old item).ease
      = (if item.ease = none then old.ease else item.ease) ∧
    (mergeCard old item).step
      = (if item.step = none then old.step else item.step) ∧
    (mergeCard old item).due
      = (if item.due = none then old.due else item.due) := by
  simp only [upsert_cards, hbix] at h
  simp only [upsertLoop, hk, hlook] at h
  simp only [Except.ok.injEq, Prod.mk.injEq] at h
  have hmods : db1.cards = listModify db.cards idx (fun o => mergeCard o item) := by
    rw [← h.1]
  refine ⟨?_, ?_, ?_, ?_, ?_, ?_, ?_, ?_, ?_, ?_, ?_⟩
  · rw [hmods]
    exact listModify_getElem?_self db.cards idx _ old hold
  · intro j hj
    rw [hmods]
    exact listModify_getElem?_ne db.cards idx j _ hj
  all_goals simp [mergeCard, ov_eq_ite]

/-- C6 witness: upserting the translation-only re-extraction overwrites
the translation but leaves `ease`, `step` and `due` untouched. -/
theorem upsert_cards_merge_preserves_fields_witness :
    upsert_cards gradedDb [retransItem] = Except.ok (gradedDb2, 1) ∧
    gradedDb2.cards[0]? = some (mergeCard gradedCard retransItem) ∧
    (mergeCard gradedCard retransItem).ease = gradedCard.ease ∧
    (mergeCard gradedCard retransItem).step = gradedCard.step ∧
    (mergeCard gradedCard retransItem).due = gradedCard.due := by
  have h := upsert_cards_merge_preserves_fields gradedDb retransItem
    ("haus", "German") [(("haus", "German"), 0)] 0 gradedCard gradedDb2 1
    rfl rfl rfl rfl rfl
  obtain ⟨ha, -, -, -, -, -, -, -, hease, hstep, hdue⟩ := h
  refine ⟨rfl, ha, ?_, ?_, ?_⟩
  · rw [hease]; rfl
  · rw [hstep]; rfl
  · rw [hdue]; rfl

/-- C7: a successful upsert returns the number of incoming items
processed, whether they merged into existing cards or were appended. -/
theorem upsert_cards_returns_items_processed (db : SRSDb) (items : List Card)
    (db1 : SRSDb) (n : ℕ) (h : upsert_cards db items = Except.ok (db1, n)) :
    n = items.length := by
  rcases hbix : buildIndexAux db.cards 0 with e | ix
  · simp [upsert_cards, hbix] at h
  simp only [upsert_cards, hbix] at h
  rcases hloop : upsertLoop ix items db.cards 0 with e | p
  · simp [hloop] at h
  rcases p with ⟨cards1, count⟩
  simp only [hloop, Except.ok.injEq, Prod.mk.injEq] at h
  have hc := upsertLoop_count ix items db.cards 0 cards1 count hloop
  omega

/-- C7 witness: upserting the same already-present item twice in one call
returns 2 (items processed), although no new card is created. -/
theorem upsert_cards_returns_items_processed_witness :
    upsert_cards gradedDb [retransItem, retransItem] =
      Except.ok ({ cards := [mergeCard (mergeCard gradedCard retransItem) retransItem] }, 2) ∧
    (2 : ℕ) = [retransItem, retransItem].length :=
  ⟨rfl,
    upsert_cards_returns_items_processed gradedDb [retransItem, retransItem]
      { cards := [mergeCard (mergeCard gradedCard retransItem) retransItem] } 2 rfl⟩

/-- C8: an incoming item lacking `term` makes `upsert_cards` raise
(`KeyError`), and the persisted store is untouched because `save_db` is
never reached. -/
theorem upsert_cards_missing_term_raises (db : SRSDb) (items : List Card)
    (hbad : ∃ item ∈ items, item.term = none) :
    (∃ e, upsert_cards db items = Except.error e) ∧
    persistAfter db (upsert_cards db items) = db := by
  rcases hbix : buildIndexAux db.cards 0 with e | ix
  · exact ⟨⟨e, by simp [upsert_cards, hbix]⟩, by simp [upsert_cards, hbix, persistAfter]⟩
  · rcases upsertLoop_err ix items hbad db.cards 0 with ⟨e2, he2⟩
    exact ⟨⟨e2, by simp [upsert_cards, hbix, he2]⟩,
      by simp [upsert_cards, hbix, he2, persistAfter]⟩

/-- C8 witness: upserting a `term`-less item into the empty store raises
and leaves the persisted store unchanged. -/
theorem upsert_cards_missing_term_raises_witness :
    (∃ item ∈ [noTermItem], item.term = none) ∧
    ((∃ e, upsert_cards defaultDb [noTermItem] = Except.error e) ∧
      persistAfter defaultDb (upsert_cards defaultDb [noTermItem]) = defaultDb) :=
  ⟨⟨noTermItem, by simp, rfl⟩,
    upsert_cards_missing_term_raises defaultDb [noTermItem]
      ⟨noTermItem, by simp, rfl⟩⟩

/-- C9: a missing or unparseable backing document makes `load_db` return
the empty default schema instead of failing; on first access the document
is initialized to that schema and missing parent directories are
created. -/
theorem load_db_recovers_default (fs : PyFS) :
    (fs.doc = DocState.missing ∨ fs.doc = DocState.unparseable →
      (load_db fs).1 = defaultDb) ∧
    (fs.doc = DocState.missing →
      (load_db fs).2 = ⟨true, DocState.parsed defaultDb⟩) ∧
    (load_db fs).2.parentDirExists = true := by
  rcases fs with ⟨p, d⟩
  rcases d <;> simp [load_db, ensure_file]

/-- C9 witness: a first access with no parent directory and no document,
and an access to a corrupted document. -/
theorem load_db_recovers_default_witness :
    (load_db ⟨false, DocState.missing⟩).1 = defaultDb ∧
    (load_db ⟨false, DocState.missing⟩).2 = ⟨true, DocState.parsed defaultDb⟩ ∧
    (load_db ⟨false, DocState.unparseable⟩).1 = defaultDb :=
  ⟨(load_db_recovers_default ⟨false, DocState.missing⟩).1 (Or.inl rfl),
   (load_db_recovers_default ⟨false, DocState.missing⟩).2.1 rfl,
   (load_db_recovers_default ⟨false, DocState.unparseable⟩).1 (Or.inr rfl)⟩

/-- `schedule_next` in terms of the split-out transition pair. -/
theorem schedule_next_eq (card : Card) (quality : String) (todayDays : ℤ) :
    schedule_next card quality todayDays =
      (match pyGetItem SRS_INTERVALS_DAYS (nextPair card quality).1 with
       | none => none
       | some days =>
         some { card with
           step := some (nextPair card quality).1
           ease := some (nextPair card quality).2
           due := some (isoMidnightString (todayDays + days)) }) := rfl

/-- The ladder length is five. -/
theorem ladder_length : (SRS_INTERVALS_DAYS.length : ℤ) = 5 := rfl

/-- Every grade branch keeps the step inside `[0, K-1]` when the
(defaulted) input step is inside `[0, K-1]`. -/
theorem nextPair_step_bounds (card : Card) (quality : String)
    (hs0 : 0 ≤ card.step.getD 0)
    (hs1 : card.step.getD 0 ≤ (SRS_INTERVALS_DAYS.length : ℤ) - 1) :
    0 ≤ (nextPair card quality).1 ∧
    (nextPair card quality).1 ≤ (SRS_INTERVALS_DAYS.length : ℤ) - 1 := by
  rw [ladder_length] at hs1 ⊢
  unfold nextPair
  rw [ladder_length]
  split_ifs <;> dsimp only <;> omega

/-- Every grade branch keeps the ease inside `[1.3, 3.0]` when the
(defaulted) input ease is inside `[1.3, 3.0]`. -/
theorem nextPair_ease_bounds (card : Card) (quality : String)
    (he0 : (1.3 : ℚ) ≤ card.ease.getD DEFAULT_EASE)
    (he1 : card.ease.getD DEFAULT_EASE ≤ 3.0) :
    (1.3 : ℚ) ≤ (nextPair card quality).2 ∧ (nextPair card quality).2 ≤ 3.0 := by
  unfold nextPair
  split_ifs <;> dsimp only <;> constructor <;>
    first
      | exact le_max_left _ _
      | exact max_le (by norm_num) (by linarith)
      | exact le_min (by norm_num) (by linarith)
      | exact min_le_left _ _
      | linarith

/-- A ladder subscript inside `[0, 4]` succeeds. -/
theorem pyGetItem_ladder_some (i : ℤ) (h0 : 0 ≤ i) (h1 : i ≤ 4) :
    ∃ d, pyGetItem SRS_INTERVALS_DAYS i = some d := by
  interval_cases i <;> exact ⟨_, rfl⟩

/-- C2: for every card and grade, a returned card carries exactly the
spec's `(ease, step)` transition — "again" resets the step and drops ease
by 0.2, "hard" keeps the step and drops ease by 0.05, "good" advances one
rung with ease unchanged, "easy" advances two rungs and raises ease by
0.05, any unrecognized grade behaves like "good" — with ease clamped to
`[1.3, 3.0]`, missing ease defaulting to the configured `DEFAULT_EASE`
(2.5) and missing step defaulting to 0. -/
theorem schedule_next_grade_transitions (card : Card) (grade : String)
    (todayDays : ℤ) (c1 : Card)
    (h : schedule_next card grade todayDays = some c1) :
    DEFAULT_EASE = 2.5 ∧
    (grade = "again" → c1.step = some 0 ∧
      c1.ease = some (max 1.3 (card.ease.getD DEFAULT_EASE - 0.2))) ∧
    (grade = "hard" → c1.step = some (card.step.getD 0) ∧
      c1.ease = some (max 1.3 (card.ease.getD DEFAULT_EASE - 0.05))) ∧
    (grade = "good" → c1.step = some (min (card.step.getD 0 + 1)
        ((SRS_INTERVALS_DAYS.length : ℤ) - 1)) ∧
      c1.ease = some (card.ease.getD DEFAULT_EASE)) ∧
    (grade = "easy" → c1.step = some (min (card.step.getD 0 + 2)
        ((SRS_INTERVALS_DAYS.length : ℤ) - 1)) ∧
      c1.ease = some (min 3.0 (card.ease.getD DEFAULT_EASE + 0.05))) ∧
    (grade ≠ "again" → grade ≠ "hard" → grade ≠ "good" → grade ≠ "easy" →
      c1.step = some (min (card.step.getD 0 + 1)
        ((SRS_INTERVALS_DAYS.length : ℤ) - 1)) ∧
      c1.ease = some (card.ease.getD DEFAULT_EASE)) := by
  rw [schedule_next_eq] at h
  rcases hres : pyGetItem SRS_INTERVALS_DAYS (nextPair card grade).1
    with _ | d <;> rw [hres] at h
  · exact absurd h (by simp)
  have hX := Option.some.inj h
  refine ⟨rfl, ?_, ?_, ?_, ?_, ?_⟩
  · intro hg; subst hg; rw [← hX]; simp [nextPair]
  · intro hg; subst hg; rw [← hX]; simp [nextPair]
  · intro hg; subst hg; rw [← hX]; simp [nextPair]
  · intro hg; subst hg; rw [← hX]; simp [nextPair]
  · intro h1 h2 h3 h4; rw [← hX]; simp [nextPair, h1, h2, h3, h4]

/-- C2 witness: a fresh `ease 2.5, step 0` card graded "good" advances to
step 1 with ease untouched. -/
theorem schedule_next_grade_transitions_witness :
    schedule_next cardB "good" 20738 = some cardBgood ∧
    cardBgood.step = some (min (cardB.step.getD 0 + 1)
      ((SRS_INTERVALS_DAYS.length : ℤ) - 1)) ∧
    cardBgood.ease = some (cardB.ease.getD DEFAULT_EASE) := by
  have h := schedule_next_grade_transitions cardB "good" 20738 cardBgood rfl
  exact ⟨rfl, (h.2.2.2.1 rfl).1, (h.2.2.2.1 rfl).2⟩

/-- C3 (amended): for every returned card, the `due` string is the ISO
calendar date of (today's UTC date plus `interval_ladder[new step]` days)
immediately followed by the time-of-day component `"T00:00:00"` and no
timezone offset — a midnight-datetime serialization, not the bare
`YYYY-MM-DD` form the original claim states (see
`schedule_next_due_not_plain_date_cex`). -/
theorem schedule_next_due_encoding (card : Card) (grade : String)
    (todayDays : ℤ) (c1 : Card)
    (h : schedule_next card grade todayDays = some c1) :
    ∃ s days : ℤ, c1.step = some s ∧
      pyGetItem SRS_INTERVALS_DAYS s = some days ∧
      c1.due = some (isoDateString (todayDays + days) ++ "T00:00:00") := by
  rw [schedule_next_eq] at h
  rcases hres : pyGetItem SRS_INTERVALS_DAYS (nextPair card grade).1
    with _ | d <;> rw [hres] at h
  · exact absurd h (by simp)
  have hX := Option.some.inj h
  exact ⟨(nextPair card grade).1, d, by rw [← hX], hres, by rw [← hX]; rfl⟩

/-- C3 counterexample: grading the scenario-B card "good" on 2026-10-12
produces a `due` of `"2026-10-15T00:00:00"` — the correct calendar date
three days out, but carrying a time-of-day component, so not of the
claimed plain `YYYY-MM-DD` form (which `isoDateString` alone would be). -/
theorem schedule_next_due_not_plain_date_cex :
    schedule_next cardB "good" 20738 = some cardBgood ∧
    cardBgood.due = some "2026-10-15T00:00:00" ∧
    isPlainIsoDate "2026-10-15T00:00:00" = false ∧
    isPlainIsoDate (isoDateString (20738 + 3)) = true :=
  ⟨rfl, rfl, by decide, by decide⟩

/-- C3 witness: the amended encoding at the scenario-B card graded
"good". -/
theorem schedule_next_due_encoding_witness :
    schedule_next cardB "good" 20738 = some cardBgood ∧
    (∃ s days : ℤ, cardBgood.step = some s ∧
      pyGetItem SRS_INTERVALS_DAYS s = some days ∧
      cardBgood.due = some (isoDateString (20738 + days) ++ "T00:00:00")) :=
  ⟨rfl, schedule_next_due_encoding cardB "good" 20738 cardBgood rfl⟩

/-- C5: a card whose (defaulted) ease lies in `[1.3, 3.0]` and whose
(defaulted) step lies in `[0, K-1]` is scheduled to a card satisfying the
same bounds, so repeated "again" never drives ease below 1.3 and repeated
"easy" never exceeds ease 3.0 or step K-1. -/
theorem schedule_next_invariants (card : Card) (grade : String)
    (todayDays : ℤ) (c1 : Card)
    (h : schedule_next card grade todayDays = some c1)
    (he0 : (1.3 : ℚ) ≤ card.ease.getD DEFAULT_EASE)
    (he1 : card.ease.getD DEFAULT_EASE ≤ 3.0)
    (hs0 : 0 ≤ card.step.getD 0)
    (hs1 : card.step.getD 0 ≤ (SRS_INTERVALS_DAYS.length : ℤ) - 1) :
    ∃ (e : ℚ) (s : ℤ), c1.ease = some e ∧ c1.step = some s ∧
      (1.3 : ℚ) ≤ e ∧ e ≤ 3.0 ∧ 0 ≤ s ∧
      s ≤ (SRS_INTERVALS_DAYS.length : ℤ) - 1 := by
  rw [schedule_next_eq] at h
  rcases hres : pyGetItem SRS_INTERVALS_DAYS (nextPair card grade).1
    with _ | d <;> rw [hres] at h
  · exact absurd h (by simp)
  have hX := Option.some.inj h
  have hE := nextPair_ease_bounds card grade he0 he1
  have hS := nextPair_step_bounds card grade hs0 hs1
  exact ⟨(nextPair card grade).2, (nextPair card grade).1,
    by rw [← hX], by rw [← hX], hE.1, hE.2, hS.1, hS.2⟩

/-- C5 witness: the scenario-C card (`ease 2.5, step 1`) graded "good"
lands at `ease 2.5, step 2`, inside the invariant ranges. -/
theorem schedule_next_invariants_witness :
    schedule_next cardC "good" 20738 = some cardCres ∧
    (∃ (e : ℚ) (s : ℤ), cardCres.ease = some e ∧ cardCres.step = some s ∧
      (1.3 : ℚ) ≤ e ∧ e ≤ 3.0 ∧ 0 ≤ s ∧
      s ≤ (SRS_INTERVALS_DAYS.length : ℤ) - 1) :=
  ⟨rfl, schedule_next_invariants cardC "good" 20738 cardCres rfl
    (by norm_num [cardC, DEFAULT_EASE]) (by norm_num [cardC, DEFAULT_EASE])
    (by norm_num [cardC]) (by norm_num [cardC, SRS_INTERVALS_DAYS])⟩

/-- C10 (implicit): when the input step is absent or an integer in
`[0, K-1]`, the ladder subscript `schedule_next` computes is in bounds for
every grade — necessarily so, since the "hard" branch leaves the input
step unclamped — and hence the subscript, and `schedule_next`, cannot
fail. -/
theorem schedule_next_index_safe (card : Card) (grade : String)
    (todayDays : ℤ)
    (hs : card.step = none ∨ ∃ s : ℤ, card.step = some s ∧ 0 ≤ s ∧
      s ≤ (SRS_INTERVALS_DAYS.length : ℤ) - 1) :
    0 ≤ (nextPair card grade).1 ∧
    (nextPair card grade).1 ≤ (SRS_INTERVALS_DAYS.length : ℤ) - 1 ∧
    ∃ c1, schedule_next card grade todayDays = some c1 := by
  have hs0 : 0 ≤ card.step.getD 0 := by
    rcases hs with h1 | ⟨s, hse, h1, h2⟩
    · simp [h1]
    · simp only [hse, Option.getD_some]; exact h1
  have hs1 : card.step.getD 0 ≤ (SRS_INTERVALS_DAYS.length : ℤ) - 1 := by
    rcases hs with h1 | ⟨s, hse, h1, h2⟩
    · simp [h1, ladder_length]
    · simp only [hse, Option.getD_some]; exact h2
  have hS := nextPair_step_bounds card grade hs0 hs1
  rcases pyGetItem_ladder_some (nextPair card grade).1 hS.1
    (by have h2 := hS.2; rw [ladder_length] at h2; omega) with ⟨d, hd⟩
  refine ⟨hS.1, hS.2, ?_⟩
  rw [schedule_next_eq, hd]
  exact ⟨_, rfl⟩

/-- C10 witness: a card at the top rung graded "easy" stays in bounds and
schedules successfully. -/
theorem schedule_next_index_safe_witness :
    0 ≤ (nextPair maxStepCard "easy").1 ∧
    (nextPair maxStepCard "easy").1 ≤ (SRS_INTERVALS_DAYS.length : ℤ) - 1 ∧
    ∃ c1, schedule_next maxStepCard "easy" 20738 = some c1 :=
  schedule_next_index_safe maxStepCard "easy" 20738
    (Or.inr ⟨4, rfl, by norm_num, by norm_num [SRS_INTERVALS_DAYS]⟩)

/-- C4: a card with a missing, empty or unparseable `due` is due;
otherwise it is due exactly when today's UTC midnight is `>=` the parsed
due value — in particular a due date of yesterday or earlier yields
`true` and a due date of tomorrow yields `false`. -/
theorem is_due_characterization (todayDays : ℤ) (card : Card) :
    (card.due = none → is_due todayDays card = true) ∧
    (card.due = some "" → is_due todayDays card = true) ∧
    (∀ s, card.due = some s → fromisoformat s = none →
      is_due todayDays card = true) ∧
    (∀ s dt, card.due = some s → s ≠ "" → fromisoformat s = some dt →
      (is_due todayDays card = true ↔ dtLe dt ⟨todayDays, 0⟩ = true) ∧
      (dt.days < todayDays → is_due todayDays card = true) ∧
      (todayDays < dt.days → is_due todayDays card = false)) := by
  refine ⟨?_, ?_, ?_, ?_⟩
  · intro h
    simp [is_due, h]
  · intro h
    simp [is_due, h]
  · intro s hs hp
    by_cases hse : s = "" <;> simp [is_due, hs, hp, hse]
  · intro s dt hs hse hp
    have hdue : is_due todayDays card = dtLe dt ⟨todayDays, 0⟩ := by
      simp [is_due, hs, hse, hp]
    rw [hdue]
    refine ⟨Iff.rfl, ?_, ?_⟩
    · intro hlt
      simp only [dtLe, Bool.or_eq_true, decide_eq_true_eq]
      exact Or.inl hlt
    · intro hgt
      rw [Bool.eq_false_iff]
      intro htrue
      simp only [dtLe, Bool.or_eq_true, Bool.and_eq_true, decide_eq_true_eq,
        beq_iff_eq] at htrue
      rcases htrue with h2 | ⟨h2, h3⟩ <;> omega

/-- C4 witness: around today = 2026-10-12 (day 20738), a card due
2026-10-11 is due, a card due 2026-10-13 is not, and cards with missing
or unparseable due values are due. -/
theorem is_due_characterization_witness :
    is_due 20738 dueYesterdayCard = true ∧
    is_due 20738 dueTomorrowCard = false ∧
    is_due 20738 badDueCard = true ∧
    is_due 20738 { } = true := by
  refine ⟨?_, ?_, ?_, ?_⟩
  · exact ((is_due_characterization 20738 dueYesterdayCard).2.2.2 "2026-10-11"
      ⟨20737, 0⟩ rfl (by decide) (by decide)).2.1 (by decide)
  · exact ((is_due_characterization 20738 dueTomorrowCard).2.2.2 "2026-10-13"
      ⟨20739, 0⟩ rfl (by decide) (by decide)).2.2 (by decide)
  · exact (is_due_characterization 20738 badDueCard).2.2.1 "soon" rfl (by decide)
  · exact (is_due_characterization 20738 { }).1 rfl

end LangCompanion
